import Mathlib

/-!
# Pyramid solver — shallow embedding and verification

A shallow embedding of the Go pyramid-puzzle solver: the game state machine
(`PuzzleGame`, `makeMove`, scoring, draw-pile segmentation with redraw and
backfill) from `game/game.go`, the position utilities from `utils/utils.go`,
and the move generator, rollout loop and budget-splitting arithmetic from
`solver/solver.go`.

Modelling conventions:

* Go `int` fields that only ever hold card values (including the sentinels
  `-1` for "empty" and `13` for the exempt stone) are `Int`; counters that
  are only ever incremented from zero (`matches`, `streak`, `streakBonus`,
  `redraws`, `currentSegment`, `numActiveSegments`, `timeRemaining`) are
  `Nat` — every Go write to them is an increment or a value computed by the
  trim loop, which stops at zero, so they can never go negative.
* The fixed Go arrays `[7][7]int` (pyramid) and `[8][]int` (draw pile) are
  lists of lists; every access the Go code performs on them is in bounds,
  and out-of-range `List.getD` defaults are never exercised on the Go
  paths.  A Go *runtime panic* — an array index or slice bound violation,
  reachable in `MakeMove` because `StringToIndices` errors are discarded
  and the `-1` indices are then used — is modelled by `Option`/`Except`
  results: `none` (or the panic error) is returned exactly where Go would
  panic.
* The one float computation (`CalculateScore`'s time bonus, and the final
  `math.Max`) is modelled by exact rational arithmetic: for every value the
  fields actually take (`timeRemaining = 120`, cleared cells in `0..28`)
  the `float64` computation is exact, so the rational floor coincides with
  the Go result.
* The `math/rand` stream driving a rollout is abstracted into an oracle
  giving, at each loop step, the index of the chosen candidate move: every
  concrete seeded run corresponds to one oracle, and a fixed seed fixes the
  oracle, since `math/rand` is deterministic per seed.
-/

namespace PyramidSolver

/-- A game move: a pair of endpoint labels (`game.Move`). -/
structure Move where
  source : String
  destination : String
deriving DecidableEq

/-- Row sizes of the triangular board, row 0 = bottom (`utils.PyramidRowSizes`). -/
def pyramidRowSizes : List Nat := [7, 6, 5, 4, 3, 2, 1]

/-- Digit run of `strconv.Atoi`: accumulates base-10 digits, failing on any
non-digit character. -/
def parseDigitsAux : List Char → Nat → Option Nat
  | [], acc => some acc
  | c :: rest, acc =>
      if c.isDigit then parseDigitsAux rest (acc * 10 + (c.toNat - 48)) else none

/-- `strconv.Atoi` on a short character list: optional single sign, then a
non-empty digit run. -/
def atoi (cs : List Char) : Option Int :=
  match cs with
  | [] => none
  | '+' :: rest =>
      match rest with
      | [] => none
      | _ => (parseDigitsAux rest 0).map (fun n => (n : Int))
  | '-' :: rest =>
      match rest with
      | [] => none
      | _ => (parseDigitsAux rest 0).map (fun n => -(n : Int))
  | _ => (parseDigitsAux cs 0).map (fun n => (n : Int))

/-- `utils.StringToIndices`: parse a cell reference such as `A1` into
0-based (row, column), validating length, row letter and the row-dependent
column bound.  `none` is the Go error return. -/
def stringToIndices (posStr : String) : Option (Nat × Nat) :=
  let cs := posStr.toList
  if cs.length < 2 ∨ cs.length > 3 then none
  else
    match cs with
    | [] => none
    | rowChar :: colChars =>
      if rowChar < 'A' ∨ rowChar > 'G' then none
      else
        let rowIdx := rowChar.toNat - 65
        match atoi colChars with
        | none => none
        | some colNum =>
          let colIdx : Int := colNum - 1
          if colIdx < 0 ∨ rowIdx ≥ pyramidRowSizes.length
              ∨ (pyramidRowSizes.getD rowIdx 0 : Int) ≤ colIdx then none
          else some (rowIdx, colIdx.toNat)

/-- `utils.IndicesToString` on the in-range domain: row letter then 1-based
single-digit column. -/
def indicesToString (rowIdx colIdx : Nat) : String :=
  String.mk [Char.ofNat (65 + rowIdx), Char.ofNat (49 + colIdx)]

/-- The game state (`game.PuzzleGame`). -/
structure PuzzleGame where
  pyramid : List (List Int)
  hold : Int
  drawPile : List (List Int)
  currentSegment : Nat
  moves : List Move
  matchCount : Nat
  streak : Nat
  streakBonus : Nat
  redraws : Nat
  timeRemaining : Nat
  numActiveSegments : Nat
deriving DecidableEq

/-- Read a pyramid cell (Go `g.pyramid[row][col]`; all Go reads are in
bounds, the `-1` default is never exercised on Go paths). -/
def pyrGet (pyr : List (List Int)) (row col : Nat) : Int :=
  (pyr.getD row []).getD col (-1)

/-- Write a pyramid cell (Go `g.pyramid[row][col] = v`). -/
def pyrSet (pyr : List (List Int)) (row col : Nat) (v : Int) : List (List Int) :=
  pyr.set row ((pyr.getD row []).set col v)

/-- `game.NewPuzzleGame`: empty 7×7 pyramid of `-1`, empty hold,
zero-valued draw pile and counters, `timeRemaining = 120`. -/
def newPuzzleGame : PuzzleGame where
  pyramid := List.replicate 7 (List.replicate 7 (-1))
  hold := -1
  drawPile := List.replicate 8 []
  currentSegment := 0
  moves := []
  matchCount := 0
  streak := 0
  streakBonus := 0
  redraws := 0
  timeRemaining := 120
  numActiveSegments := 0

/-- The trim loop of `game._trimEmptySegments`, counting down from `k`
while the segment below the counter is empty. -/
def trimCountAux (pile : List (List Int)) : Nat → Nat
  | 0 => 0
  | k + 1 => if pile.getD k [] = [] then trimCountAux pile k else k + 1

/-- The active-segment count `game._trimEmptySegments` computes: start at 8
and strip trailing empty segments. -/
def trimCount (pile : List (List Int)) : Nat :=
  trimCountAux pile 8

/-- `game._trimEmptySegments`: recompute `numActiveSegments`. -/
def trim (g : PuzzleGame) : PuzzleGame :=
  { g with numActiveSegments := trimCount g.drawPile }

/-- Pop the top (last) card of segment `i` (Go slice re-slice
`pile[i] = pile[i][:len-1]`). -/
def dropLastSeg (pile : List (List Int)) (i : Nat) : List (List Int) :=
  pile.set i ((pile.getD i []).dropLast)

/-- The backfill scan of `game.GetCurrentDrawStone`: walk segments
`k-1, k-2, …, 0` and return the top of the first non-empty one, `-1` if
none. -/
def scanBackStone (pile : List (List Int)) : Nat → Int
  | 0 => -1
  | k + 1 =>
      let s := pile.getD k []
      if s = [] then scanBackStone pile k else s.getLast?.getD (-1)

/-- `game.GetCurrentDrawStone`: the top of the current segment, else the
top of the nearest preceding non-empty segment, else `-1`.  A pure read:
the Go body assigns to no field. -/
def getCurrentDrawStone (g : PuzzleGame) : Int :=
  let cur := g.drawPile.getD g.currentSegment []
  if cur ≠ [] then cur.getLast?.getD (-1)
  else scanBackStone g.drawPile g.currentSegment

/-- The backfill removal loop shared by every "remove the visible draw
card" block of `game.MakeMove`: walk segments `k-1, …, 0`, pop the first
non-empty one and immediately re-trim, leaving the state untouched if all
are empty. -/
def backfillPop (g : PuzzleGame) : Nat → PuzzleGame
  | 0 => g
  | k + 1 =>
      if g.drawPile.getD k [] = [] then backfillPop g k
      else trim { g with drawPile := dropLastSeg g.drawPile k }

/-- Remove the visible draw card, exactly as each of the four identical
inline blocks of `game.MakeMove` does: pop the current segment if
non-empty (no re-trim), else take the backfill path (pop then re-trim). -/
def popDrawVisible (g : PuzzleGame) : PuzzleGame :=
  if g.drawPile.getD g.currentSegment [] = [] then backfillPop g g.currentSegment
  else { g with drawPile := dropLastSeg g.drawPile g.currentSegment }

/-- The match/streak bookkeeping `game.MakeMove` performs after a clearing
move: `matches`, `streak` increment, then streak bonus (`(streak-1)*50`
for streaks 2–4, flat `200` from 5 on). -/
def creditMatch (g : PuzzleGame) : PuzzleGame :=
  let streak := g.streak + 1
  let bonus :=
    if streak > 1 then
      if streak ≥ 5 then g.streakBonus + 200 else g.streakBonus + (streak - 1) * 50
    else g.streakBonus
  { g with matchCount := g.matchCount + 1, streak := streak, streakBonus := bonus }

/-- The valid matching pairs table of `game.IsMatchingPair`. -/
def validPairs : List (Int × Int) := [(1, 2), (3, 4), (5, 6), (7, 8), (9, 10), (11, 12)]

/-- `game.IsMatchingPair`: both stones present and non-exempt, and the pair
occurs (in either order) in the `validPairs` table. -/
def isMatchingPair (stone1 stone2 : Int) : Bool :=
  if stone1 = -1 ∨ stone2 = -1 ∨ stone1 = 13 ∨ stone2 = 13 then false
  else validPairs.any fun p =>
    decide ((stone1 = p.1 ∧ stone2 = p.2) ∨ (stone1 = p.2 ∧ stone2 = p.1))

/-- The endpoint-value lookup `game.MakeMove` performs for both
`sourceStone` and `potentialMatchDestStone`: hold content for `HOLD`, the
visible draw card for `DRW1`, otherwise the pyramid cell — where Go
discards the `StringToIndices` error and then indexes `pyramid[-1][-1]`,
a runtime panic, modelled as `none`. -/
def endpointValue (g : PuzzleGame) (label : String) : Option Int :=
  if label = "HOLD" then some g.hold
  else if label = "DRW1" then some (getCurrentDrawStone g)
  else (stringToIndices label).map fun rc => pyrGet g.pyramid rc.1 rc.2

/-- The pair-match removal block of `game.MakeMove` (used for source and
destination): `DRW1` pops the visible card (with backfill re-trim), `HOLD`
empties the hold, otherwise the parsed cell is emptied (`none` = the Go
panic on an unparsable label). -/
def removeEndpoint (g : PuzzleGame) (label : String) : Option PuzzleGame :=
  if label = "DRW1" then some (popDrawVisible g)
  else if label = "HOLD" then some { g with hold := -1 }
  else (stringToIndices label).map fun rc =>
    { g with pyramid := pyrSet g.pyramid rc.1 rc.2 (-1) }

/-- The removal block of the place-into-hold branch of `game.MakeMove`:
unlike the match branch it has no `HOLD` case, so a `HOLD` source panics
(`none`). -/
def removeForHoldPlacement (g : PuzzleGame) (label : String) : Option PuzzleGame :=
  if label = "DRW1" then some (popDrawVisible g)
  else (stringToIndices label).map fun rc =>
    { g with pyramid := pyrSet g.pyramid rc.1 rc.2 (-1) }

/-- The packing loop of `game._redistributeDrawPile`: append each stone to
segment `segIdx`, advancing to the next segment when the current one holds
3, dropping stones once past segment 7. -/
def redistAux : List Int → List (List Int) → Nat → List (List Int)
  | [], pile, _ => pile
  | s :: rest, pile, segIdx =>
      if segIdx < 8 then
        if (pile.getD segIdx []).length < 3 then
          redistAux rest (pile.set segIdx ((pile.getD segIdx []) ++ [s])) segIdx
        else
          if segIdx + 1 < 8 then
            redistAux rest (pile.set (segIdx + 1) ((pile.getD (segIdx + 1) []) ++ [s])) (segIdx + 1)
          else redistAux rest pile (segIdx + 1)
      else redistAux rest pile segIdx

/-- `game._redistributeDrawPile`: concatenate all segments in order, repack
into fresh segments of 3 front to back, then re-trim. -/
def redistributeDrawPile (g : PuzzleGame) : PuzzleGame :=
  let allStones := g.drawPile.flatten
  trim { g with drawPile := redistAux allStones (List.replicate 8 []) 0 }

/-- Append the move to the log, as `game.MakeMove` unconditionally does
first. -/
def appendMove (g : PuzzleGame) (source destination : String) : PuzzleGame :=
  { g with moves := g.moves ++ [⟨source, destination⟩] }

/-- `game.MakeMove`: the full state machine.  Returns `some (state,
cleared)`; `none` models the Go runtime panic reached when a pyramid
endpoint label fails to parse and the discarded `-1` indices are used. -/
def makeMove (g0 : PuzzleGame) (source destination : String) : Option (PuzzleGame × Bool) :=
  let g := appendMove g0 source destination
  if source = "DRAW" ∧ destination = "DRAW" then
    let cs := g.currentSegment + 1
    if cs ≥ g.numActiveSegments then
      let g1 := { g with currentSegment := 0, redraws := g.redraws + 1 }
      let g2 := trim (redistributeDrawPile g1)
      some ({ g2 with streak := 0 }, false)
    else some ({ g with currentSegment := cs, streak := 0 }, false)
  else if destination = "SMASH" then
    if source = "DRW1" then
      let stone := getCurrentDrawStone g
      if stone = 13 then some (creditMatch (popDrawVisible g), true)
      else some (g, false)
    else
      match stringToIndices source with
      | none => none
      | some rc =>
        let stone := pyrGet g.pyramid rc.1 rc.2
        if stone = 13 then
          some (creditMatch { g with pyramid := pyrSet g.pyramid rc.1 rc.2 (-1) }, true)
        else some (g, false)
  else
    match endpointValue g source with
    | none => none
    | some sourceStone =>
      match endpointValue g destination with
      | none => none
      | some destStone =>
        if isMatchingPair sourceStone destStone then
          match removeEndpoint g source with
          | none => none
          | some g1 =>
            match removeEndpoint g1 destination with
            | none => none
            | some g2 => some (creditMatch g2, true)
        else if destination = "HOLD" then
          if g.hold ≠ -1 then some (g, false)
          else
            match removeForHoldPlacement { g with hold := sourceStone } source with
            | none => none
            | some g2 => some (g2, false)
        else some ({ g with streak := 0 }, false)

/-- `game.IsSolved`: every pyramid cell (within the row bounds) is empty. -/
def isSolved (g : PuzzleGame) : Bool :=
  (List.range 7).all fun r =>
    (List.range (pyramidRowSizes.getD r 0)).all fun c => pyrGet g.pyramid r c = -1

/-- The cleared-cell count of `game.calculateCompletionPercentage`. -/
def clearedCells (g : PuzzleGame) : Nat :=
  ((List.range 7).map fun r =>
    ((List.range (pyramidRowSizes.getD r 0)).filter fun c =>
      pyrGet g.pyramid r c = -1).length).sum

/-- `game.calculateCompletionPercentage`, modelled exactly in ℚ. -/
def completionPercentage (g : PuzzleGame) : ℚ :=
  (clearedCells g : ℚ) / 28

/-- The stones-remaining count of `game.CalculateScore`: one for an
occupied hold plus every card left in the draw pile. -/
def stonesRemainingCount (g : PuzzleGame) : Nat :=
  (if g.hold ≠ -1 then 1 else 0) + (g.drawPile.map List.length).sum

/-- `game.CalculateScore`.  The `float64` time bonus and the final
`math.Max(0,·)` are modelled in exact arithmetic (exact for every value the
fields take: `timeRemaining = 120`, cleared cells `0..28`). -/
def calculateScore (g : PuzzleGame) : Int :=
  let matchingScore : Int := (g.matchCount : Int) * 50
  let stonesRemainingScore : Int :=
    if isSolved g then (stonesRemainingCount g : Int) * 50 else 0
  let redrawCost : Int := (g.redraws : Int) * (-50)
  let completionBonus : Int := if isSolved g then 500 else 0
  let timeBonus : Int := Int.floor ((g.timeRemaining : ℚ) * completionPercentage g * 6)
  let totalScore := matchingScore + stonesRemainingScore + redrawCost
    + (g.streakBonus : Int) + completionBonus + timeBonus
  max 0 totalScore

/-- `game.IsAccessible`: occupied, and on the bottom row or with both
supports below empty. -/
def isAccessible (g : PuzzleGame) (rowIdx colIdx : Nat) : Bool :=
  if pyrGet g.pyramid rowIdx colIdx = -1 then false
  else if rowIdx = 0 then true
  else pyrGet g.pyramid (rowIdx - 1) colIdx = -1
    ∧ pyrGet g.pyramid (rowIdx - 1) (colIdx + 1) = -1

/-- `game.GetAccessiblePositions`: row-major accessible cells as position
strings. -/
def getAccessiblePositions (g : PuzzleGame) : List String :=
  (List.range 7).flatMap fun r =>
    (List.range (pyramidRowSizes.getD r 0)).filterMap fun c =>
      if isAccessible g r c then some (indicesToString r c) else none

/-- `game.DeepCopy`: a fresh game with every field copied. -/
def deepCopy (g : PuzzleGame) : PuzzleGame where
  pyramid := g.pyramid
  hold := g.hold
  drawPile := g.drawPile
  currentSegment := g.currentSegment
  moves := g.moves
  matchCount := g.matchCount
  streak := g.streak
  streakBonus := g.streakBonus
  redraws := g.redraws
  timeRemaining := g.timeRemaining
  numActiveSegments := g.numActiveSegments

/-- `game.Reset`: overwrite every field of the receiver from the template
and clear the move log (the receiver's old contents are only reused as
storage capacity, which is value-invisible). -/
def resetFrom (_g original : PuzzleGame) : PuzzleGame where
  pyramid := original.pyramid
  hold := original.hold
  drawPile := original.drawPile
  currentSegment := original.currentSegment
  moves := []
  matchCount := original.matchCount
  streak := original.streak
  streakBonus := original.streakBonus
  redraws := original.redraws
  timeRemaining := original.timeRemaining
  numActiveSegments := original.numActiveSegments

/-- The eight draw-pile slices `game.SetupCustomGame` builds: segment `i`
is `ds[3i : min (3i+3) len]`; when `3i > len` the Go slice expression has
`low > high` and panics (`none`). -/
def segmentSlices (ds : List Int) : Option (List (List Int)) :=
  if (List.range 8).all (fun i => 3 * i ≤ ds.length) then
    some ((List.range 8).map fun i => (ds.drop (3 * i)).take 3)
  else none

/-- The row-major pyramid fill positions (`game.getAllPyramidPositions`). -/
def pyramidPositions : List (Nat × Nat) :=
  (List.range 7).flatMap fun r =>
    (List.range (pyramidRowSizes.getD r 0)).map fun c => (r, c)

/-- Fill the 28 pyramid cells in row-major order from the stone list. -/
def fillPyramid (pyr : List (List Int)) (stones : List Int) : List (List Int) :=
  (pyramidPositions.zip stones).foldl (fun p rcv => pyrSet p rcv.1.1 rcv.1.2 rcv.2) pyr

/-- `game.SetupCustomGame`: validate counts, fill the pyramid, slice the
draw pile into segments of 3, trim.  The slice-bound panic for draw piles
shorter than 21 cards is modelled as an error result. -/
def setupCustomGame (g : PuzzleGame) (pyramidStones drawPileStones : List Int) :
    Except String PuzzleGame :=
  if pyramidStones.length ≠ 28 then Except.error "pyramid must have 28 stones"
  else if drawPileStones.length > 24 then
    Except.error "draw pile must have at most 24 stones"
  else
    match segmentSlices drawPileStones with
    | none => Except.error "runtime panic: slice bounds out of range"
    | some segs =>
        Except.ok (trim { g with pyramid := fillPyramid g.pyramid pyramidStones,
                                 drawPile := segs })

/-- `solver.getPossibleMovesForSimulation`, inner loop body for the `i`-th
accessible position: pair matches with later accessible positions, then the
hold match, the visible-draw match and the place-into-hold candidate, in
the Go append order.  A 13 stone contributes nothing here. -/
def movesForPos (g : PuzzleGame) (acc : List String) (i : Nat) (pos1 : String) : List Move :=
  match stringToIndices pos1 with
  | none => []
  | some rc =>
    let stone1 := pyrGet g.pyramid rc.1 rc.2
    if stone1 = 13 then []
    else
      let pairMoves := (acc.drop (i + 1)).filterMap fun pos2 =>
        match stringToIndices pos2 with
        | none => none
        | some rc2 =>
          if isMatchingPair stone1 (pyrGet g.pyramid rc2.1 rc2.2) then
            some ⟨pos1, pos2⟩
          else none
      let holdMatch : List Move :=
        if g.hold ≠ -1 ∧ isMatchingPair stone1 g.hold then [⟨pos1, "HOLD"⟩] else []
      let drawMatch : List Move :=
        let d := getCurrentDrawStone g
        if d ≠ -1 ∧ isMatchingPair stone1 d then [⟨pos1, "DRW1"⟩] else []
      let holdPlace : List Move :=
        if g.hold = -1 ∧ stone1 ≠ 13 then [⟨pos1, "HOLD"⟩] else []
      pairMoves ++ holdMatch ++ drawMatch ++ holdPlace

/-- `solver.getPossibleMovesForSimulation`: always the advance-draw move
first, then solo discards of accessible 13s, then the per-position
candidates, then the hold/draw combinations, in the Go order. -/
def getPossibleMovesForSimulation (g : PuzzleGame) : List Move :=
  let acc := getAccessiblePositions g
  let smashMoves := acc.filterMap fun pos =>
    match stringToIndices pos with
    | none => none
    | some rc => if pyrGet g.pyramid rc.1 rc.2 = 13 then some ⟨pos, "SMASH"⟩ else none
  let posMoves := acc.enum.flatMap fun pi => movesForPos g acc pi.1 pi.2
  let holdDrawMatch : List Move :=
    if g.hold ≠ -1 ∧ getCurrentDrawStone g ≠ -1
        ∧ isMatchingPair g.hold (getCurrentDrawStone g) then
      [⟨"HOLD", "DRW1"⟩]
    else []
  let drawToHold : List Move :=
    if g.hold = -1 ∧ getCurrentDrawStone g ≠ -1 ∧ getCurrentDrawStone g ≠ 13 then
      [⟨"DRW1", "HOLD"⟩]
    else []
  let drawSmash : List Move :=
    if getCurrentDrawStone g = 13 then [⟨"DRW1", "SMASH"⟩] else []
  ⟨"DRAW", "DRAW"⟩ :: (smashMoves ++ posMoves ++ holdDrawMatch ++ drawToHold ++ drawSmash)

/-- The rollout loop of `solver.worker`: while the board is unsolved, ask
the generator for candidates, stop if none, let the oracle `choice` pick
one (`choice` abstracts the seeded `math/rand` policy — uniform when the
running score is 0, else 0.8-biased toward trial-tested clearing moves;
every concrete run picks some index of `possibleMoves`, which is what the
oracle supplies, keyed by the number of moves made so far), apply it,
record it, and stop once more than 200 moves were made.  A `makeMove`
panic (unreachable for generated moves) aborts the rollout. -/
def simLoop (choice : Nat → Nat) (g : PuzzleGame) (movesMade : List Move) :
    PuzzleGame × List Move :=
  if isSolved g then (g, movesMade)
  else
    let pm := getPossibleMovesForSimulation g
    if pm.length = 0 then (g, movesMade)
    else
      let mv := pm.getD (choice movesMade.length % pm.length) ⟨"DRAW", "DRAW"⟩
      match makeMove g mv.source mv.destination with
      | none => (g, movesMade)
      | some gb =>
        if (movesMade ++ [mv]).length > 200 then (gb.1, movesMade ++ [mv])
        else simLoop choice gb.1 (movesMade ++ [mv])
termination_by 201 - movesMade.length
decreasing_by
  simp only [List.length_append, List.length_cons, List.length_nil] at *
  omega

/-- The per-job simulation loop of `solver.worker`: run `n` rollouts,
resetting the rollout buffer from the template before each, and keep the
first strictly best (score, moves) pair; the buffer is threaded so that
its pre-iteration contents are exactly what the Go reuse pattern leaves in
it. -/
def workerSims (choice : Nat → Nat → Nat) (template : PuzzleGame) :
    Nat → PuzzleGame → Int × List Move → (Int × List Move) × PuzzleGame
  | 0, buf, best => (best, buf)
  | n + 1, buf, best =>
      let simStart := resetFrom buf template
      let res := simLoop (choice n) simStart []
      let score := calculateScore res.1
      let best2 := if score > best.1 then (score, res.2) else best
      workerSims choice template n res.1 best2

/-- `solver.SolveMonteCarlo` specialised to one worker: the whole budget
goes to the single job, and the manager reduces the single worker result
with its strictly-greater-replaces rule starting from `(-1, [])`. -/
def singleWorkerSolve (template : PuzzleGame) (iterations : Nat)
    (choice : Nat → Nat → Nat) (buf : PuzzleGame) : Int × List Move :=
  let r := (workerSims choice template iterations buf (-1, [])).1
  if r.1 > -1 then r else (-1, [])

/-- The per-worker budget split of `solver.SolveMonteCarlo`:
`iterations / numWorkers` each, plus the remainder for the last worker. -/
def simsForWorker (iterations numWorkers w : Nat) : Nat :=
  iterations / numWorkers + (if w = numWorkers - 1 then iterations % numWorkers else 0)

/-- The number of jobs `solver.SolveMonteCarlo` enqueues: one per worker
whose assigned simulation count is nonzero. -/
def numJobsEnqueued (iterations numWorkers : Nat) : Nat :=
  ((List.range numWorkers).filter fun w => 0 < simsForWorker iterations numWorkers w).length

/-- The number of results the collection loop of `solver.SolveMonteCarlo`
blocks for: one per index `w` with
`iterations/numWorkers > 0 || w < iterations%numWorkers`. -/
def numResultsCollected (iterations numWorkers : Nat) : Nat :=
  ((List.range numWorkers).filter fun w =>
    0 < iterations / numWorkers ∨ w < iterations % numWorkers).length

/-- Spec-side repack (`from the spec's words`): cut the concatenated cards
into consecutive chunks of 3, front to back. -/
def chunk3 : List Int → List (List Int)
  | [] => []
  | a :: b :: c :: rest => [a, b, c] :: chunk3 rest
  | l => [l]

/-- Spec-side repack, padded with empty segments to the fixed pile size 8. -/
def padTo8 (segs : List (List Int)) : List (List Int) :=
  segs ++ List.replicate (8 - segs.length) []

/-- The advance-draw transition as the spec describes it: log the move and
reset the streak; when the incremented cursor reaches the active-segment
count, concatenate all remaining cards in original relative order, repack
them front to back into fixed-size-3 segments, recompute the
active-segment count, reset the cursor and count one redraw; otherwise
just advance the cursor. -/
def advanceDrawSpec (g : PuzzleGame) : PuzzleGame :=
  let g1 := { g with moves := g.moves ++ [(⟨"DRAW", "DRAW"⟩ : Move)], streak := 0 }
  if g.currentSegment + 1 ≥ g.numActiveSegments then
    let newPile := padTo8 (chunk3 g.drawPile.flatten)
    { g1 with currentSegment := 0, redraws := g.redraws + 1,
              drawPile := newPile, numActiveSegments := trimCount newPile }
  else { g1 with currentSegment := g.currentSegment + 1 }

/-- The draw-pile well-formedness the trim loop establishes: the pile has
its fixed 8 segments and every segment at or beyond `nas` is empty. -/
def InvP (pile : List (List Int)) (nas : Nat) : Prop :=
  pile.length = 8 ∧ nas ≤ 8 ∧ ∀ i, nas ≤ i → pile.getD i [] = []

/-- States reachable from a freshly set-up game `g0` by move application,
deep copying, and resetting from any other reachable state. -/
inductive Reachable (g0 : PuzzleGame) : PuzzleGame → Prop
  | init : Reachable g0 g0
  | move {g g2 : PuzzleGame} {s d : String} {b : Bool} :
      Reachable g0 g → makeMove g s d = some (g2, b) → Reachable g0 g2
  | copy {g : PuzzleGame} : Reachable g0 g → Reachable g0 (deepCopy g)
  | reset {g h : PuzzleGame} :
      Reachable g0 g → Reachable g0 h → Reachable g0 (resetFrom g h)

/-- The example puzzle hard-coded in `main.go`, set up via
`SetupCustomGame`. -/
def exampleGame : PuzzleGame :=
  (setupCustomGame newPuzzleGame
    [12, 10, 11, 6, 11, 7, 12, 11, 5, 1, 4, 1, 4, 5, 10, 8, 11, 9, 7, 2, 9, 6, 2, 13,
     9, 10, 12, 13]
    [6, 3, 8, 9, 3, 10, 2, 13, 6, 7, 1, 13, 12, 4, 1, 2, 3, 8, 5, 3, 5, 7, 3, 8]).toOption.getD
    newPuzzleGame

/-- A family of states with one stone (value 1) at A1, an empty hold and an
empty draw pile; the move log and the scalar counters are free.  From any
state in the family the candidate list is exactly the advance-draw move and
the place-A1-into-hold move, and advancing the draw keeps the family. -/
def gK (ms : List Move) (m s sb rd : Nat) : PuzzleGame :=
  { newPuzzleGame with pyramid := pyrSet newPuzzleGame.pyramid 0 0 1, moves := ms,
                       matchCount := m, streak := s, streakBonus := sb, redraws := rd }

/-- A state about to redraw: two active segments, cursor on the last. -/
def rdG : PuzzleGame :=
  { newPuzzleGame with drawPile := [[1, 2, 3], [4], [], [], [], [], [], []],
                       currentSegment := 1, numActiveSegments := 2 }

/-- A backfill state: the current segment (2) is empty, segment 1 holds a
stone, so the visible card is read — and removed — through the backfill
path. -/
def bfG : PuzzleGame :=
  { newPuzzleGame with drawPile := [[], [5], [], [], [], [], [], []],
                       currentSegment := 2, numActiveSegments := 2 }

/-- A state whose current segment is non-empty, for the non-backfill side
of the removal asymmetry. -/
def bfG2 : PuzzleGame :=
  { newPuzzleGame with drawPile := [[], [5], [7], [], [], [], [], []],
                       currentSegment := 2, numActiveSegments := 3 }

/-- A state with an occupied hold, a live streak and a non-matching
accessible stone at A1: moving A1 onto the occupied hold is rejected. -/
def c8G : PuzzleGame :=
  { newPuzzleGame with pyramid := pyrSet newPuzzleGame.pyramid 0 0 5, hold := 1,
                       streak := 3 }

/-- A freshly set-up game on constant stone lists, for exercising the
reachability invariant. -/
def c10G : PuzzleGame :=
  (setupCustomGame newPuzzleGame (List.replicate 28 1) (List.replicate 24 2)).toOption.getD
    newPuzzleGame

/-! ## C1 — the pair-match predicate -/

/-- C1 (counterexample): the claim asserts `Match(a,b)` holds iff both are
ordinary ranks summing to 13, and in particular `Match(6,7) = true`; but
the code's pair table is the consecutive pairs (1,2),(3,4),…,(11,12), so
`Match(6,7) = false` even though 6+7 = 13, while `Match(5,6) = true`
although 5+6 ≠ 13. -/
theorem c1_counterexample :
    isMatchingPair 6 7 = false ∧ (6 : Int) + 7 = 13
      ∧ isMatchingPair 5 6 = true ∧ (5 : Int) + 6 ≠ 13 := by
  decide

set_option maxHeartbeats 800000 in
/-- C1 (amended): the pair-match predicate holds iff both values are
ordinary ranks in 1..12 forming one of the consecutive pairs
\x7b2k−1, 2k\x7d — equivalently, the two values are adjacent with the
smaller one odd; the exempt value 13 (and the empty sentinel) never
matches. -/
theorem c1_pair_characterization (a b : Int) :
    isMatchingPair a b = true ↔
      1 ≤ a ∧ a ≤ 12 ∧ 1 ≤ b ∧ b ≤ 12 ∧
        ((b = a + 1 ∧ a % 2 = 1) ∨ (a = b + 1 ∧ b % 2 = 1)) := by
  simp only [isMatchingPair, validPairs, List.any_cons, List.any_nil,
    Bool.or_eq_true, decide_eq_true_eq]
  split_ifs with h
  · constructor
    · exact False.elim
    · intro hr
      omega
  · simp only [Bool.or_eq_true, decide_eq_true_eq, Bool.false_eq_true, or_false]
    clear h
    constructor
    · intro hl
      omega
    · rintro ⟨h1, h2, h3, h4, ⟨rfl, hodd⟩ | ⟨rfl, hodd⟩⟩
      · have ha : a = 1 ∨ a = 3 ∨ a = 5 ∨ a = 7 ∨ a = 9 ∨ a = 11 := by omega
        rcases ha with rfl | rfl | rfl | rfl | rfl | rfl <;> norm_num
      · have hb : b = 1 ∨ b = 3 ∨ b = 5 ∨ b = 7 ∨ b = 9 ∨ b = 11 := by omega
        rcases hb with rfl | rfl | rfl | rfl | rfl | rfl <;> norm_num

/-! ## C2 — budget split versus result collection -/

/-- C2 (code bug witness): with a budget of 2 iterations over 3 workers the
split assigns all 2 simulations to the last worker, so exactly one job is
enqueued with nonzero work — but the collection loop's condition
`iterations/numWorkers > 0 || w < iterations%numWorkers` makes the manager
block for two results.  Only one result can ever arrive, contradicting the
claim (and deadlocking the Go program). -/
theorem c2_collection_mismatch :
    numResultsCollected 2 3 = 2 ∧ numJobsEnqueued 2 3 = 1
      ∧ simsForWorker 2 3 0 = 0 ∧ simsForWorker 2 3 1 = 0 ∧ simsForWorker 2 3 2 = 2
      ∧ simsForWorker 2 3 0 + simsForWorker 2 3 1 + simsForWorker 2 3 2 = 2 := by
  decide

/-! ## C6 — the score formula -/

/-- C6: for every state the score accessor returns 50×matches, plus (if
solved) 50× the count of cards remaining in hold and draw pile, minus
50×redraws, plus the streak bonus, plus (if solved) 500, plus
⌊timeRemaining × (clearedBoardCells/28) × 6⌋, clamped below at 0 — so the
reported score is never negative. -/
theorem c6_score_formula (g : PuzzleGame) :
    calculateScore g =
      max 0 (50 * (g.matchCount : Int)
        + (if isSolved g then 50 * (stonesRemainingCount g : Int) else 0)
        - 50 * (g.redraws : Int) + (g.streakBonus : Int)
        + (if isSolved g then 500 else 0)
        + Int.floor ((g.timeRemaining : ℚ) * ((clearedCells g : ℚ) / 28) * 6))
      ∧ 0 ≤ calculateScore g := by
  constructor
  · simp only [calculateScore, completionPercentage]
    split_ifs <;> (congr 1; ring)
  · simp only [calculateScore]
    exact le_max_left 0 _

/-! ## Helper lemmas about the move machinery -/

/-- Appending to the move log changes no field the endpoint lookup reads. -/
theorem endpointValue_append (g : PuzzleGame) (s d lbl : String) :
    endpointValue (appendMove g s d) lbl = endpointValue g lbl := rfl

/-- Appending to the move log does not change the visible draw card. -/
theorem getCurrentDrawStone_append (g : PuzzleGame) (s d : String) :
    getCurrentDrawStone (appendMove g s d) = getCurrentDrawStone g := rfl

/-- The endpoint lookup succeeds on the reserved tokens and on parsable
cell references. -/
theorem isSome_endpointValue (g : PuzzleGame) (lbl : String)
    (h : lbl = "HOLD" ∨ lbl = "DRW1" ∨ (stringToIndices lbl).isSome = true) :
    (endpointValue g lbl).isSome = true := by
  unfold endpointValue
  split_ifs <;> simp_all

/-- The match-branch removal succeeds on the reserved tokens and on
parsable cell references. -/
theorem isSome_removeEndpoint (g : PuzzleGame) (lbl : String)
    (h : lbl = "HOLD" ∨ lbl = "DRW1" ∨ (stringToIndices lbl).isSome = true) :
    (removeEndpoint g lbl).isSome = true := by
  unfold removeEndpoint
  split_ifs <;> simp_all

/-- The hold-placement removal succeeds on `DRW1` and on parsable cell
references (there is no `HOLD` case in that Go block). -/
theorem isSome_removeForHoldPlacement (g : PuzzleGame) (lbl : String)
    (h : lbl = "DRW1" ∨ (stringToIndices lbl).isSome = true) :
    (removeForHoldPlacement g lbl).isSome = true := by
  unfold removeForHoldPlacement
  split_ifs <;> simp_all

/-! ## C3 — no panic, and silent rejection -/

/-- C3 (counterexample): the claim allows any label strings, but
`MakeMove` discards `StringToIndices` errors and indexes the pyramid with
the `-1` error indices: on the malformed source label `Z9` (row outside
`A`–`G`) the Go code panics with an index-out-of-range (modelled as
`none`) instead of being a silent no-op. -/
theorem c3_counterexample : makeMove exampleGame "Z9" "HOLD" = none := by
  decide

/-- C3 (amended): for every constructed GameState and every move whose
labels fit the shapes the move generator emits — `(DRAW,DRAW)`; a source
that is `DRW1` or a well-formed in-bounds cell reference together with a
destination that is `SMASH`, `HOLD`, `DRW1` or a well-formed cell
reference; or a `HOLD` source with a `DRW1` or cell destination —
`MakeMove` never errors or panics; and a cell-discard move whose stone is
not the exempt 13 is silently rejected: it returns `cleared = false` and
leaves the state unchanged except for the appended move-log entry. -/
theorem c3_no_panic (g : PuzzleGame) (s d : String) :
    ((s = "DRAW" ∧ d = "DRAW")
        ∨ ((s = "DRW1" ∨ (stringToIndices s).isSome = true)
            ∧ (d = "SMASH" ∨ d = "HOLD" ∨ d = "DRW1" ∨ (stringToIndices d).isSome = true))
        ∨ (s = "HOLD" ∧ (d = "DRW1" ∨ (stringToIndices d).isSome = true)) →
      (makeMove g s d).isSome = true)
    ∧ (∀ rc : Nat × Nat, stringToIndices s = some rc →
        pyrGet g.pyramid rc.1 rc.2 ≠ 13 →
        makeMove g s "SMASH" = some (appendMove g s "SMASH", false)) := by
  constructor
  · intro hshape
    by_cases hdd : s = "DRAW" ∧ d = "DRAW"
    · obtain ⟨rfl, rfl⟩ := hdd
      unfold makeMove
      rw [if_pos ⟨rfl, rfl⟩]
      dsimp only
      split <;> simp
    · have hsrc : s = "HOLD" ∨ s = "DRW1" ∨ (stringToIndices s).isSome = true := by
        rcases hshape with h | ⟨hs, _⟩ | ⟨rfl, _⟩
        · exact absurd h hdd
        · tauto
        · tauto
      by_cases hsm : d = "SMASH"
      · subst hsm
        have hs2 : s = "DRW1" ∨ (stringToIndices s).isSome = true := by
          rcases hshape with h | ⟨hs, _⟩ | ⟨rfl, hd⟩
          · exact absurd h hdd
          · exact hs
          · rcases hd with h | h
            · exact absurd h (by decide)
            · exact absurd h (by decide)
        unfold makeMove
        rw [if_neg hdd, if_pos rfl]
        rcases hs2 with rfl | hs2
        · rw [if_pos rfl]
          dsimp only
          split <;> simp
        · have hne : s ≠ "DRW1" := by
            rintro rfl
            exact absurd hs2 (by decide)
          rw [if_neg hne]
          obtain ⟨rc, hrc⟩ := Option.isSome_iff_exists.mp hs2
          rw [hrc]
          dsimp only
          split <;> simp
      · have hdst : d = "HOLD" ∨ d = "DRW1" ∨ (stringToIndices d).isSome = true := by
          rcases hshape with h | ⟨_, hd⟩ | ⟨_, hd⟩
          · exact absurd h hdd
          · rcases hd with h | h | h | h
            · exact absurd h hsm
            · tauto
            · tauto
            · tauto
          · tauto
        obtain ⟨vs, hvs⟩ := Option.isSome_iff_exists.mp (isSome_endpointValue g s hsrc)
        obtain ⟨vd, hvd⟩ := Option.isSome_iff_exists.mp (isSome_endpointValue g d hdst)
        unfold makeMove
        rw [if_neg hdd, if_neg hsm]
        rw [show endpointValue (appendMove g s d) s = endpointValue g s from rfl, hvs]
        dsimp only
        rw [show endpointValue (appendMove g s d) d = endpointValue g d from rfl, hvd]
        dsimp only
        by_cases hmp : isMatchingPair vs vd = true
        · rw [if_pos hmp]
          obtain ⟨g1, hg1⟩ := Option.isSome_iff_exists.mp
            (isSome_removeEndpoint (appendMove g s d) s hsrc)
          rw [hg1]
          dsimp only
          obtain ⟨g2, hg2⟩ := Option.isSome_iff_exists.mp (isSome_removeEndpoint g1 d hdst)
          rw [hg2]
          simp
        · rw [if_neg hmp]
          by_cases hdh : d = "HOLD"
          · subst hdh
            rw [if_pos rfl]
            by_cases hocc : (appendMove g s "HOLD").hold ≠ -1
            · rw [if_pos hocc]
              simp
            · rw [if_neg hocc]
              have hs3 : s = "DRW1" ∨ (stringToIndices s).isSome = true := by
                rcases hshape with h | ⟨hs, _⟩ | ⟨rfl, hd⟩
                · exact absurd h hdd
                · exact hs
                · rcases hd with h | h
                  · exact absurd h (by decide)
                  · exact absurd h (by decide)
              obtain ⟨g2, hg2⟩ := Option.isSome_iff_exists.mp
                (isSome_removeForHoldPlacement
                  { appendMove g s "HOLD" with hold := vs } s hs3)
              rw [hg2]
              simp
          · rw [if_neg hdh]
            simp
  · intro rc hrc h13
    have hne1 : ¬(s = "DRAW" ∧ ("SMASH" : String) = "DRAW") := by
      rintro ⟨rfl, h⟩
      exact absurd h (by decide)
    have hne2 : s ≠ "DRW1" := by
      rintro rfl
      rw [show stringToIndices "DRW1" = none from by decide] at hrc
      cases hrc
    unfold makeMove
    rw [if_neg hne1, if_pos rfl, if_neg hne2, hrc]
    dsimp only
    rw [if_neg (by exact h13)]

/-- C3 (witness): the no-panic theorem applied to the example puzzle and
the non-matching, generator-shaped move `A2 → A4`, and the silent-reject
part applied to the non-exempt cell `A1`. -/
theorem c3_witness :
    (makeMove exampleGame "A2" "A4").isSome = true
      ∧ makeMove exampleGame "A1" "SMASH"
          = some (appendMove exampleGame "A1" "SMASH", false) :=
  ⟨(c3_no_panic exampleGame "A2" "A4").1
      (Or.inr (Or.inl ⟨Or.inr (by decide), Or.inr (Or.inr (Or.inr (by decide)))⟩)),
    (c3_no_panic exampleGame "A1" "SMASH").2 (0, 0) (by decide) (by decide)⟩

/-! ## C8 — the fallback branch -/

/-- C8 (counterexample): the claim says a non-matching move into an
already-occupied hold resets the streak to 0, but that rejection is an
early return taken before the fallback streak reset: on a state with
streak 3 the move `A1 → HOLD` (5 against held 1) returns `false` and
leaves the streak at 3. -/
theorem c8_counterexample :
    makeMove c8G "A1" "HOLD" = some (appendMove c8G "A1" "HOLD", false)
      ∧ (appendMove c8G "A1" "HOLD").streak = 3 ∧ c8G.streak = 3 := by
  decide

/-- C8 (amended): a move that is none of the other kinds and whose
destination is not the hold — not advance-draw, not a `SMASH` discard, not
a matching pair — resets the streak to 0, returns `false`, and leaves the
state otherwise unchanged except for the appended move-log entry; a
non-matching move into an already-occupied hold instead returns `false`
leaving even the streak unchanged (again with only the log entry added). -/
theorem c8_fallback (g : PuzzleGame) (s d : String) (vs vd : Int) :
    (¬(s = "DRAW" ∧ d = "DRAW") → d ≠ "SMASH" → d ≠ "HOLD" →
      endpointValue g s = some vs → endpointValue g d = some vd →
      isMatchingPair vs vd = false →
      makeMove g s d = some ({ appendMove g s d with streak := 0 }, false))
    ∧ (¬(s = "DRAW" ∧ d = "DRAW") → d = "HOLD" →
      endpointValue g s = some vs → g.hold ≠ -1 →
      isMatchingPair vs g.hold = false →
      makeMove g s d = some (appendMove g s d, false)) := by
  constructor
  · intro hdd hsm hdh hvs hvd hmp
    unfold makeMove
    rw [if_neg hdd, if_neg hsm]
    rw [show endpointValue (appendMove g s d) s = endpointValue g s from rfl, hvs]
    dsimp only
    rw [show endpointValue (appendMove g s d) d = endpointValue g d from rfl, hvd]
    dsimp only
    rw [if_neg (by simp [hmp]), if_neg hdh]
  · intro hdd hdh hvs hocc hmp
    subst hdh
    unfold makeMove
    rw [if_neg hdd, if_neg (by decide)]
    rw [show endpointValue (appendMove g s "HOLD") s = endpointValue g s from rfl, hvs]
    dsimp only
    rw [show endpointValue (appendMove g s "HOLD") "HOLD" = some g.hold from rfl]
    dsimp only
    rw [if_neg (by simp [hmp]), if_pos rfl, if_pos (by exact hocc)]

/-- C8 (witness): the fallback conjunct applied to the example puzzle's
non-matching cells `A2 → A4` (values 10 and 6), and the occupied-hold
conjunct applied to `c8G`. -/
theorem c8_witness :
    makeMove exampleGame "A2" "A4"
        = some ({ appendMove exampleGame "A2" "A4" with streak := 0 }, false)
      ∧ makeMove c8G "A1" "HOLD" = some (appendMove c8G "A1" "HOLD", false) :=
  ⟨(c8_fallback exampleGame "A2" "A4" 10 6).1 (by decide) (by decide) (by decide)
      (by decide) (by decide) (by decide),
    (c8_fallback c8G "A1" "HOLD" 5 1).2 (by decide) rfl (by decide) (by decide)
      (by decide)⟩

/-! ## C7 — the read/remove backfill asymmetry -/

/-- When the backfill loop finds a non-empty segment below `k`, it pops it
and immediately re-trims, so the resulting active-segment count is the
recomputed trim of the resulting pile. -/
theorem backfillPop_retrims (g : PuzzleGame) :
    ∀ k, (∃ j, j < k ∧ g.drawPile.getD j [] ≠ []) →
      (backfillPop g k).numActiveSegments = trimCount (backfillPop g k).drawPile := by
  intro k
  induction k with
  | zero =>
      rintro ⟨j, hj, _⟩
      omega
  | succ k ih =>
      rintro ⟨j, hj, hne⟩
      unfold backfillPop
      split_ifs with hk
      · refine ih ⟨j, ?_, hne⟩
        rcases Nat.lt_succ_iff_lt_or_eq.mp hj with h | rfl
        · exact h
        · exact absurd hk hne
      · rfl

/-- C7: reading the visible draw card never mutates the state — even when
the read goes through the backfill scan, a move that merely consults it
(a `DRW1 → SMASH` discard whose stone is not 13) leaves segments, cursor
and active-segment count untouched, adding only the log entry — whereas
*removing* the visible card through the backfill path (current segment
empty, some preceding segment non-empty) recomputes the active-segment
count immediately after the pop; a removal from a non-empty current
segment pops it without touching the count. -/
theorem c7_backfill_asymmetry (g : PuzzleGame) :
    (getCurrentDrawStone g ≠ 13 →
      makeMove g "DRW1" "SMASH" = some (appendMove g "DRW1" "SMASH", false))
    ∧ (g.drawPile.getD g.currentSegment [] = [] →
      (∃ j, j < g.currentSegment ∧ g.drawPile.getD j [] ≠ []) →
      (popDrawVisible g).numActiveSegments = trimCount (popDrawVisible g).drawPile)
    ∧ (g.drawPile.getD g.currentSegment [] ≠ [] →
      (popDrawVisible g).numActiveSegments = g.numActiveSegments
        ∧ (popDrawVisible g).drawPile = dropLastSeg g.drawPile g.currentSegment) := by
  refine ⟨?_, ?_, ?_⟩
  · intro h13
    unfold makeMove
    rw [if_neg (by decide), if_pos rfl, if_pos rfl]
    dsimp only
    rw [if_neg (by exact h13)]
  · intro hcur hex
    unfold popDrawVisible
    rw [if_pos hcur]
    exact backfillPop_retrims g g.currentSegment hex
  · intro hcur
    unfold popDrawVisible
    rw [if_neg hcur]
    exact ⟨rfl, rfl⟩

/-- C7 (witness): the three conjuncts applied to the concrete backfill
state `bfG` (current segment 2 empty, segment 1 holds a 5) and to `bfG2`
(current segment non-empty). -/
theorem c7_witness :
    makeMove bfG "DRW1" "SMASH" = some (appendMove bfG "DRW1" "SMASH", false)
      ∧ (popDrawVisible bfG).numActiveSegments = trimCount (popDrawVisible bfG).drawPile
      ∧ (popDrawVisible bfG2).numActiveSegments = bfG2.numActiveSegments :=
  ⟨(c7_backfill_asymmetry bfG).1 (by decide),
    (c7_backfill_asymmetry bfG).2.1 (by decide) ⟨1, by decide, by decide⟩,
    ((c7_backfill_asymmetry bfG2).2.2 (by decide)).1⟩

/-! ## C5 — the advance-draw transition -/

/-- A non-empty list of at most three elements is a single chunk. -/
theorem chunk3_short (l : List Int) (hne : l ≠ []) (hlen : l.length ≤ 3) :
    chunk3 l = [l] := by
  match l with
  | [] => exact absurd rfl hne
  | [a] => rfl
  | [a, b] => rfl
  | [a, b, c] => rfl
  | a :: b :: c :: d :: t => simp at hlen

/-- A full first chunk splits off the front. -/
theorem chunk3_full (l m : List Int) (hlen : l.length = 3) :
    chunk3 (l ++ m) = l :: chunk3 m := by
  match l, hlen with
  | [a, b, c], _ => rfl

/-- Padding distributes over a cons when the target size steps down. -/
theorem padTo8_replicate (k : Nat) : ([] : List Int) :: List.replicate k ([] : List Int)
    = List.replicate (k + 1) [] := by
  simp [List.replicate_succ]

/-- The packing loop, run from a partially filled segment: `before` holds
the already-full segments, `cur` the one being filled, and `k` trailing
fresh segments remain.  As long as the stones fit, the result is `before`
followed by the size-3 chunks of `cur ++ stones`, padded with empty
segments. -/
theorem redistAux_chunks :
    ∀ (stones : List Int) (before : List (List Int)) (cur : List Int) (k : Nat),
      cur.length ≤ 3 →
      before.length + 1 + k = 8 →
      (cur ++ stones).length ≤ 3 * (k + 1) →
      redistAux stones (before ++ cur :: List.replicate k []) before.length
        = before ++ (chunk3 (cur ++ stones)
            ++ List.replicate (k + 1 - (chunk3 (cur ++ stones)).length) []) := by
  intro stones
  induction stones with
  | nil =>
      intro before cur k hcur h8 hcap
      unfold redistAux
      by_cases hc : cur = []
      · subst hc
        simp [chunk3, List.replicate_succ]
      · rw [List.append_nil, chunk3_short cur hc hcur]
        simp
  | cons s rest ih =>
      intro before cur k hcur h8 hcap
      have hlt : before.length < 8 := by omega
      have hget : (before ++ cur :: List.replicate k []).getD before.length [] = cur := by
        rw [List.getD_append_right _ _ _ _ (le_refl _), Nat.sub_self]
        rfl
      unfold redistAux
      rw [if_pos hlt, hget]
      by_cases hfull : cur.length < 3
      · rw [if_pos hfull]
        have hset : (before ++ cur :: List.replicate k []).set before.length (cur ++ [s])
            = before ++ (cur ++ [s]) :: List.replicate k [] := by
          rw [List.set_append_right _ _ (le_refl _), Nat.sub_self]
          rfl
        rw [hset]
        have := ih before (cur ++ [s]) k (by simp; omega) h8
          (by simpa using by simp at hcap ⊢; omega)
        rw [this]
        simp
      · rw [if_neg hfull]
        have hcl : cur.length = 3 := by omega
        have hk : 1 ≤ k := by
          simp at hcap
          omega
        obtain ⟨k2, rfl⟩ : ∃ k2, k = k2 + 1 := ⟨k - 1, by omega⟩
        rw [if_pos (by omega)]
        have hrep : (List.replicate (k2 + 1) ([] : List Int)) = [] :: List.replicate k2 [] := by
          simp [List.replicate_succ]
        have hget2 : (before ++ cur :: List.replicate (k2 + 1) []).getD (before.length + 1) []
            = [] := by
          rw [List.getD_append_right _ _ _ _ (by omega)]
          have : before.length + 1 - before.length = 1 := by omega
          rw [this, hrep]
          rfl
        have hset2 : (before ++ cur :: List.replicate (k2 + 1) []).set (before.length + 1)
            ([] ++ [s]) = (before ++ [cur]) ++ [s] :: List.replicate k2 [] := by
          rw [List.set_append_right _ _ (by omega)]
          have : before.length + 1 - before.length = 1 := by omega
          rw [this, hrep]
          simp
        rw [hget2, hset2]
        have hlen2 : before.length + 1 = (before ++ [cur]).length := by simp
        rw [hlen2]
        have := ih (before ++ [cur]) [s] k2 (by simp) (by simp; omega)
          (by simp at hcap ⊢; omega)
        rw [this]
        have hch : chunk3 (cur ++ s :: rest) = cur :: chunk3 ([s] ++ rest) :=
          chunk3_full cur (s :: rest) hcl
        rw [hch]
        simp [List.append_assoc]

/-- The packing loop of `_redistributeDrawPile`, started on the empty
8-segment pile, produces exactly the front-to-back size-3 repack the spec
describes, for any reachable card count (at most 24). -/
theorem redistAux_repack (stones : List Int) (h : stones.length ≤ 24) :
    redistAux stones (List.replicate 8 []) 0 = padTo8 (chunk3 stones) := by
  have h0 : (List.replicate 8 ([] : List Int)) = [] ++ [] :: List.replicate 7 [] := by
    simp [List.replicate_succ]
  have := redistAux_chunks stones [] [] 7 (by simp) (by simp) (by simpa using h)
  rw [h0]
  simpa [padTo8] using this

/-- C5: the advance-draw move increments the cursor; exactly when the
incremented cursor reaches (or passes — the code tests `>=`) the
active-segment count it performs one redraw — remaining cards concatenated
in original relative order, repacked front to back into fixed-size-3
segments, active-segment count recomputed, cursor reset to 0, redraw count
incremented by exactly one; in both cases it resets the streak to 0,
touches neither the pyramid nor the hold nor the match counter (never
clears a card), and returns false. -/
theorem c5_advance_draw (g : PuzzleGame)
    (hcap : g.drawPile.flatten.length ≤ 24) :
    makeMove g "DRAW" "DRAW" = some (advanceDrawSpec g, false) := by
  unfold makeMove advanceDrawSpec appendMove
  rw [if_pos ⟨rfl, rfl⟩]
  dsimp only
  by_cases hcs : g.currentSegment + 1 ≥ g.numActiveSegments
  · rw [if_pos hcs, if_pos hcs]
    unfold redistributeDrawPile trim
    dsimp only
    rw [redistAux_repack _ hcap]
  · rw [if_neg hcs, if_neg hcs]

/-- C5 (witness): the theorem applied to the concrete pre-redraw state
`rdG`, checking the full redraw outcome. -/
theorem c5_witness :
    rdG.drawPile.flatten.length ≤ 24
      ∧ makeMove rdG "DRAW" "DRAW" = some (advanceDrawSpec rdG, false) :=
  ⟨by decide, c5_advance_draw rdG (by decide)⟩

/-! ## C4 — rollout termination and the move-count cap -/

/-- The rollout loop adds at most `201 - |movesMade|` further moves: the
cap check `len(movesMade) > 200` runs after the append, so a loop entered
with an empty log can reach 201 moves but no more. -/
theorem simLoop_length_le (choice : Nat → Nat) :
    ∀ (k : Nat) (g : PuzzleGame) (mm : List Move), 201 - mm.length ≤ k →
      (simLoop choice g mm).2.length ≤ max (mm.length + 1) 201 := by
  intro k
  induction k with
  | zero =>
      intro g mm hk
      rw [simLoop]
      dsimp only
      split
      · dsimp only
        omega
      · split
        · dsimp only
          omega
        · split
          · dsimp only
            omega
          · split
            · dsimp only
              simp only [List.length_append, List.length_cons, List.length_nil]
              omega
            · rename_i h4
              simp only [List.length_append, List.length_cons, List.length_nil,
                gt_iff_lt, Nat.not_lt] at h4
              omega
  | succ k ih =>
      intro g mm hk
      rw [simLoop]
      dsimp only
      split
      · dsimp only
        omega
      · split
        · dsimp only
          omega
        · split
          · dsimp only
            omega
          · split
            · dsimp only
              simp only [List.length_append, List.length_cons, List.length_nil]
              omega
            · rename_i h4
              simp only [List.length_append, List.length_cons, List.length_nil,
                gt_iff_lt, Nat.not_lt] at h4
              refine le_trans (ih _ _ ?_) ?_
              · simp
                omega
              · simp only [List.length_append, List.length_cons, List.length_nil]
                omega

/-- C4 (amended): every simulated playout terminates — the rollout loop is
a total function — and, because the move-count check `len(movesMade) > 200`
happens only after a move has been applied and recorded, a rollout applies
at most 201 (not 200) moves. -/
theorem c4_rollout_cap (choice : Nat → Nat) (g : PuzzleGame) :
    (simLoop choice g []).2.length ≤ 201 := by
  have := simLoop_length_le choice 201 g [] (by simp)
  simpa using this

/-- On the `gK` family the board is never solved. -/
theorem isSolved_gK (ms : List Move) (m s sb rd : Nat) :
    isSolved (gK ms m s sb rd) = false := rfl

/-- The move generator reads only the pyramid, the hold, the draw pile and
the cursor: the move log and the scalar counters do not affect it. -/
theorem pm_scalars (g : PuzzleGame) (ms2 : List Move) (m2 s2 sb2 rd2 tr2 nas2 : Nat) :
    getPossibleMovesForSimulation
        { g with moves := ms2, matchCount := m2, streak := s2, streakBonus := sb2,
                 redraws := rd2, timeRemaining := tr2, numActiveSegments := nas2 }
      = getPossibleMovesForSimulation g := rfl

/-- On the `gK` family the candidate list is always the advance-draw move
followed by the place-into-hold move. -/
theorem pm_gK (ms : List Move) (m s sb rd : Nat) :
    getPossibleMovesForSimulation (gK ms m s sb rd)
      = [{ source := "DRAW", destination := "DRAW" },
         { source := "A1", destination := "HOLD" }] :=
  (pm_scalars (gK [] 0 0 0 0) ms m s sb rd 120 0).trans (by rfl)

/-- Advancing the draw on a `gK` state stays in the family: the empty pile
is repacked to itself, the cursor returns to 0, and only the log, streak
and redraw count change. -/
theorem makeMove_gK (ms : List Move) (m s sb rd : Nat) :
    makeMove (gK ms m s sb rd) "DRAW" "DRAW"
      = some (gK (ms ++ [{ source := "DRAW", destination := "DRAW" }]) m 0 sb (rd + 1),
          false) := rfl

/-- A rollout on the `gK` family under the always-pick-the-first-candidate
oracle (realisable: the running score stays 0, so the Go policy picks
uniformly among all candidates, and the advance-draw move is always the
first) runs to the cap, finishing with exactly 201 recorded moves. -/
theorem simLoop_gK (k : Nat) :
    ∀ (ms mm : List Move) (m s sb rd : Nat), mm.length + k = 200 →
      (simLoop (fun _ => 0) (gK ms m s sb rd) mm).2.length = 201 := by
  induction k with
  | zero =>
      intro ms mm m s sb rd hmm
      rw [simLoop]
      dsimp only
      rw [isSolved_gK, if_neg Bool.false_ne_true, pm_gK]
      simp only [List.length_cons, List.length_nil, Nat.zero_mod, List.getD_cons_zero]
      rw [if_neg (by decide)]
      rw [makeMove_gK]
      dsimp only
      rw [if_pos (by simp; omega)]
      simp
      omega
  | succ k ih =>
      intro ms mm m s sb rd hmm
      rw [simLoop]
      dsimp only
      rw [isSolved_gK, if_neg Bool.false_ne_true, pm_gK]
      simp only [List.length_cons, List.length_nil, Nat.zero_mod, List.getD_cons_zero]
      rw [if_neg (by decide)]
      rw [makeMove_gK]
      dsimp only
      rw [if_neg (by simp; omega)]
      exact ih _ (mm ++ [_]) m 0 sb (rd + 1) (by simp; omega)

/-- C4 (counterexample): the cap the claim states (200) is exceeded — from a state
with a single stone at A1 and an empty draw pile, the rollout that always
picks the first candidate (the ever-present advance-draw move) applies 201
moves. -/
theorem c4_counterexample :
    (simLoop (fun _ => 0) (gK [] 0 0 0 0) []).2.length = 201 :=
  simLoop_gK 200 [] [] 0 0 0 0 rfl

/-! ## C9 — deterministic replay for a single fixed-seed worker -/

/-- C9: a full single-worker search is a deterministic function of the
template, the iteration budget and the random stream (the oracle; a fixed
`math/rand` seed fixes the stream): its result does not depend on the
contents the reused rollout buffer happens to start with — the in-place
`Reset` from the template erases all buffer history each iteration — so
two repeated searches over the same budget with the same seed return the
identical best score and best move sequence. -/
theorem c9_deterministic_replay (template : PuzzleGame) (iters : Nat)
    (choice : Nat → Nat → Nat) (b b2 : PuzzleGame) :
    singleWorkerSolve template iters choice b
      = singleWorkerSolve template iters choice b2 := by
  cases iters <;> rfl

/-! ## C10 — the trailing-empty-segment invariant -/

/-- The trim loop never counts past its starting point. -/
theorem trimCountAux_le (pile : List (List Int)) : ∀ k, trimCountAux pile k ≤ k := by
  intro k
  induction k with
  | zero => simp [trimCountAux]
  | succ k ih =>
      unfold trimCountAux
      split_ifs
      · exact le_trans ih (by omega)
      · exact le_refl _

/-- Every segment between the trim loop's result and its starting point is
empty. -/
theorem trimCountAux_empty (pile : List (List Int)) :
    ∀ k i, trimCountAux pile k ≤ i → i < k → pile.getD i [] = [] := by
  intro k
  induction k with
  | zero =>
      intro i _ h
      omega
  | succ k ih =>
      intro i h1 h2
      unfold trimCountAux at h1
      split_ifs at h1 with hk
      · rcases Nat.lt_succ_iff_lt_or_eq.mp h2 with h | rfl
        · exact ih i h1 h
        · exact hk
      · omega

/-- On an 8-segment pile, re-trimming establishes the invariant. -/
theorem InvP_trim (pile : List (List Int)) (h8 : pile.length = 8) :
    InvP pile (trimCount pile) := by
  refine ⟨h8, trimCountAux_le pile 8, ?_⟩
  intro i hi
  by_cases hlt : i < 8
  · exact trimCountAux_empty pile 8 i hi hlt
  · exact List.getD_eq_default _ _ (by omega)

/-- Popping the tail of any one segment preserves the invariant: an empty
segment stays empty under `dropLast`. -/
theorem InvP_dropLastSeg (pile : List (List Int)) (nas i : Nat) (h : InvP pile nas) :
    InvP (dropLastSeg pile i) nas := by
  obtain ⟨h8, hle, hempty⟩ := h
  refine ⟨by simp [dropLastSeg, h8], hle, ?_⟩
  intro j hj
  have hij := hempty j hj
  unfold dropLastSeg
  rw [List.getD_eq_getElem?_getD, List.getElem?_set]
  split_ifs with h1 h2
  · subst h1
    rw [List.getD_eq_getElem?_getD] at hij
    simp [hij]
  · simp
  · rw [← List.getD_eq_getElem?_getD]
    exact hij

/-- The backfill removal loop preserves the invariant: it either leaves
the pile alone or pops one segment and re-trims. -/
theorem InvP_backfillPop (g : PuzzleGame) (h : InvP g.drawPile g.numActiveSegments) :
    ∀ k, InvP (backfillPop g k).drawPile (backfillPop g k).numActiveSegments := by
  intro k
  induction k with
  | zero => exact h
  | succ k ih =>
      unfold backfillPop
      split_ifs with hk
      · exact ih
      · dsimp only [trim]
        exact InvP_trim _ (by simp [dropLastSeg, h.1])

/-- Removing the visible draw card preserves the invariant. -/
theorem InvP_popDrawVisible (g : PuzzleGame) (h : InvP g.drawPile g.numActiveSegments) :
    InvP (popDrawVisible g).drawPile (popDrawVisible g).numActiveSegments := by
  unfold popDrawVisible
  split_ifs with hcur
  · exact InvP_backfillPop g h g.currentSegment
  · exact InvP_dropLastSeg _ _ _ ⟨h.1, h.2.1, h.2.2⟩

/-- The repacking loop never changes the number of segments. -/
theorem redistAux_length : ∀ (stones : List Int) (pile : List (List Int)) (idx : Nat),
    (redistAux stones pile idx).length = pile.length := by
  intro stones
  induction stones with
  | nil =>
      intro pile idx
      rfl
  | cons s rest ih =>
      intro pile idx
      unfold redistAux
      split_ifs with h1 h2 h3
      · rw [ih]
        simp
      · rw [ih]
        simp
      · exact ih pile _
      · exact ih pile _

/-- The match-branch removal preserves the invariant for every endpoint
kind. -/
theorem InvP_removeEndpoint (g g2 : PuzzleGame) (lbl : String)
    (h : InvP g.drawPile g.numActiveSegments) (hr : removeEndpoint g lbl = some g2) :
    InvP g2.drawPile g2.numActiveSegments := by
  unfold removeEndpoint at hr
  split_ifs at hr with h1 h2
  · cases hr
    exact InvP_popDrawVisible g h
  · cases hr
    exact h
  · rcases Option.map_eq_some'.mp hr with ⟨rc, _, rfl⟩
    exact h

/-- The hold-placement removal preserves the invariant. -/
theorem InvP_removeForHoldPlacement (g g2 : PuzzleGame) (lbl : String)
    (h : InvP g.drawPile g.numActiveSegments) (hr : removeForHoldPlacement g lbl = some g2) :
    InvP g2.drawPile g2.numActiveSegments := by
  unfold removeForHoldPlacement at hr
  split_ifs at hr with h1
  · cases hr
    exact InvP_popDrawVisible g h
  · rcases Option.map_eq_some'.mp hr with ⟨rc, _, rfl⟩
    exact h

/-- Every successful move application preserves the invariant: every write
the state machine makes to the draw pile is a pop, a pop-and-retrim, or a
repack-and-retrim. -/
theorem InvP_makeMove (g g2 : PuzzleGame) (s d : String) (b : Bool)
    (hInv : InvP g.drawPile g.numActiveSegments)
    (hm : makeMove g s d = some (g2, b)) :
    InvP g2.drawPile g2.numActiveSegments := by
  unfold makeMove at hm
  dsimp only at hm
  split at hm
  · split at hm
    · cases hm
      dsimp only [trim, redistributeDrawPile]
      exact InvP_trim _ (by rw [redistAux_length]; simp)
    · cases hm
      exact hInv
  · split at hm
    · split at hm
      · split at hm
        · cases hm
          exact InvP_popDrawVisible _ hInv
        · cases hm
          exact hInv
      · split at hm
        · exact Option.noConfusion hm
        · split at hm
          · cases hm
            exact hInv
          · cases hm
            exact hInv
    · split at hm
      · exact Option.noConfusion hm
      · split at hm
        · exact Option.noConfusion hm
        · split at hm
          · split at hm
            · exact Option.noConfusion hm
            · rename_i g1 hg1
              split at hm
              · exact Option.noConfusion hm
              · rename_i gm2 hg2
                cases hm
                show InvP gm2.drawPile gm2.numActiveSegments
                refine InvP_removeEndpoint _ _ _ ?_ hg2
                refine InvP_removeEndpoint _ _ _ ?_ hg1
                exact hInv
          · split at hm
            · split at hm
              · cases hm
                exact hInv
              · split at hm
                · exact Option.noConfusion hm
                · rename_i gm2 hg2
                  cases hm
                  refine InvP_removeForHoldPlacement _ _ _ ?_ hg2
                  exact hInv
            · cases hm
              exact hInv

/-- Custom setup ends in a trim of an 8-segment pile, establishing the
invariant. -/
theorem InvP_setup (g g0 : PuzzleGame) (ps ds : List Int)
    (h : setupCustomGame g ps ds = Except.ok g0) :
    InvP g0.drawPile g0.numActiveSegments := by
  unfold setupCustomGame at h
  split_ifs at h
  split at h
  · exact Except.noConfusion h
  · rename_i segs hsegs
    cases h
    refine InvP_trim _ ?_
    unfold segmentSlices at hsegs
    split_ifs at hsegs
    cases hsegs
    simp [trim]

/-- C10: in every state reachable from a freshly set-up game by any
sequence of move applications, deep copies and resets, the active-segment
count stays between 0 and 8 inclusive (it is a natural number, and every
write to it comes from the trim loop, which stops at 0) and every
draw-pile segment with index at or beyond it is empty — the count, even
when stale after a pop, never undercounts the trailing empty region. -/
theorem c10_segment_invariant (ps ds : List Int) (gInit g0 g : PuzzleGame)
    (hsetup : setupCustomGame gInit ps ds = Except.ok g0)
    (hr : Reachable g0 g) :
    g.numActiveSegments ≤ 8
      ∧ ∀ i, g.numActiveSegments ≤ i → g.drawPile.getD i [] = [] := by
  have key : InvP g.drawPile g.numActiveSegments := by
    induction hr with
    | init => exact InvP_setup _ _ _ _ hsetup
    | move hr hm ih => exact InvP_makeMove _ _ _ _ _ ih hm
    | copy hr ih => exact ih
    | reset hr1 hr2 ih1 ih2 => exact ih2
  exact ⟨key.2.1, key.2.2⟩

/-- C10 (witness): the invariant read off at the freshly set-up constant
game. -/
theorem c10_witness :
    setupCustomGame newPuzzleGame (List.replicate 28 1) (List.replicate 24 2)
        = Except.ok c10G
      ∧ c10G.numActiveSegments ≤ 8
      ∧ c10G.drawPile.getD c10G.numActiveSegments [] = [] :=
  ⟨by rfl,
    (c10_segment_invariant (List.replicate 28 1) (List.replicate 24 2) newPuzzleGame c10G
      c10G (by rfl) Reachable.init).1,
    (c10_segment_invariant (List.replicate 28 1) (List.replicate 24 2) newPuzzleGame c10G
      c10G (by rfl) Reachable.init).2 _ (le_refl _)⟩

end PyramidSolver
